import Mathlib

set_option maxHeartbeats 1000000

namespace RuTaBERT

/-!
Shallow embedding of the RuTaBERT training pipeline
(`src/utils/functions.py`, `src/model/metric.py`, `src/trainer/trainer.py`).
Tensors are modelled as nested lists, scalar metric and loss values as
rationals, and the torch library calls used by the code (pad_sequence,
cat, nonzero, checkpoint save/load) by their documented semantics.
-/

/-- A dataset sample as handed to `collate`: a token-id sequence (`data`)
and its label sequence (`labels`). -/
structure Sample where
  data : List Nat
  labels : List Nat
  deriving Repr, DecidableEq

/-- A collated batch: padded token-id rows plus the flattened label sequence. -/
structure Batch where
  data : List (List Nat)
  labels : List Nat
  deriving Repr, DecidableEq

/-- Length of the longest `data` sequence in the batch, the length
`torch.nn.utils.rnn.pad_sequence` pads to. -/
def batch_max_len (samples : List Sample) : Nat :=
  (samples.map (fun s => s.data.length)).foldr max 0

/-- One row after `pad_sequence` and transposition: the sequence followed by
zeros up to the batch maximum length (padding_value defaults to 0). -/
def pad_sequence_row (maxLen : Nat) (xs : List Nat) : List Nat :=
  xs ++ List.replicate (maxLen - xs.length) 0

/-- `collate` from `src/utils/functions.py`: pad every `data` sequence with
zeros to the length of the longest sequence in the batch
(`pad_sequence` then `.T`), and concatenate all label sequences
(`torch.cat`). -/
def collate (samples : List Sample) : Batch :=
  { data := samples.map (fun s => pad_sequence_row (batch_max_len samples) s.data),
    labels := (samples.map (fun s => s.labels)).flatten }

/-- A torch device: CPU or a CUDA device index. -/
inductive Device where
  | cpu : Device
  | cuda : Nat → Device
  deriving Repr, DecidableEq

/-- Result of `prepare_device`: the chosen device, the device-id list, and
the warnings printed on the way. -/
structure PrepareDeviceResult where
  device : Device
  list_ids : List Nat
  warnings : List String
  deriving Repr, DecidableEq

/-- `prepare_device` from `src/utils/functions.py`. `num_gpu` models
`torch.cuda.device_count()`; `n_gpu_use` is the configured GPU count
(an int in the source, so possibly negative). -/
def prepare_device (num_gpu : Nat) (n_gpu_use : Int) : PrepareDeviceResult :=
  let step1 : Int × List String :=
    if n_gpu_use > 0 ∧ num_gpu = 0 then
      (0, ["Warning: No GPU available on this machine, training will be performed on CPU."])
    else
      (n_gpu_use, [])
  let step2 : Int × List String :=
    if step1.1 > (num_gpu : Int) then
      ((num_gpu : Int),
        step1.2 ++ ["Warning: The number of GPU configured to use is " ++ toString step1.1 ++
          ", but only " ++ toString num_gpu ++ " are available"])
    else
      step1
  { device := if step2.1 > 0 then Device.cuda 0 else Device.cpu,
    list_ids := List.range step2.1.toNat,
    warnings := step2.2 }

/-- The GPU count actually used after the two clamping steps of
`prepare_device`. -/
def clamped_gpu_count (num_gpu : Nat) (n_gpu_use : Int) : Int :=
  let n1 : Int := if n_gpu_use > 0 ∧ num_gpu = 0 then 0 else n_gpu_use
  if n1 > (num_gpu : Int) then (num_gpu : Int) else n1

/-- Indexes (within one tensor row, starting at offset `k`) whose entry
equals `token_id`, in increasing order. -/
def row_token_indexes (token_id : Nat) : List Nat → Nat → List Nat
  | [], _ => []
  | x :: xs, k =>
    if x = token_id then k :: row_token_indexes token_id xs (k + 1)
    else row_token_indexes token_id xs (k + 1)

/-- Row-by-row accumulation of matching index pairs, rows scanned from
offset `j`. -/
def nonzero_rows (token_id : Nat) : List (List Nat) → Nat → List (Nat × Nat)
  | [], _ => []
  | row :: rows, j =>
    (row_token_indexes token_id row 0).map (fun k => (j, k)) ++
      nonzero_rows token_id rows (j + 1)

/-- Semantics of `torch.nonzero(data == token_id)` on a 2-D tensor: the index
pairs of the matching positions, in lexicographic (row-major) order, as the
torch documentation guarantees. -/
def torch_nonzero_eq (data : List (List Nat)) (token_id : Nat) : List (Nat × Nat) :=
  nonzero_rows token_id data 0

/-- `get_token_logits` from `src/utils/functions.py`: allocate one output row
per matching index pair and fill row `i` with `logits[j, k, :]` for the
`i`-th pair `(j, k)`. The zero-initialise-then-assign loop of the source
writes every row exactly once, hence the map. -/
def get_token_logits (data : List (List Nat)) (logits : List (List (List Rat)))
    (token_id : Nat) : List (List Rat) :=
  let token_indexes := torch_nonzero_eq data token_id
  token_indexes.map (fun jk => (logits.getD jk.1 []).getD jk.2 [])

/-- Row-major (lexicographic) order on tensor index pairs: earlier example
first, earlier position within an example second. -/
def idx_lex_lt (a b : Nat × Nat) : Prop :=
  a.1 < b.1 ∨ (a.1 = b.1 ∧ a.2 < b.2)

/-- Python values exchanged between the trainer and the metric function:
ints, nested int lists (tensor-like), opaque F1 scores, tuples and dicts. -/
inductive PyVal where
  | int : Int → PyVal
  | nested : List (List Nat) → PyVal
  | f1 : String → Nat → List Nat → List Nat → PyVal
  | tup : List PyVal → PyVal
  | dict : List (String × PyVal) → PyVal

/-- torch.flatten of a tensor built from a nested list: row concatenation. -/
def torch_flatten (xss : List (List Nat)) : List Nat := xss.flatten

/-- Opaque model of torcheval multiclass_f1_score: records the averaging
strategy, the class count and the flattened inputs of the call. -/
def multiclass_f1_score (preds targets : List Nat) (num_classes : Nat)
    (average : String) : PyVal :=
  PyVal.f1 average num_classes preds targets

/-- multiple_f1_score from `src/model/metric.py`: exactly two parameters
(output, target), num_classes hardcoded to 339, returning the plain tuple
(f1_micro, f1_macro, f1_weighted). -/
def multiple_f1_score (output target : List (List Nat)) : PyVal :=
  let logits_tensor := torch_flatten output
  let targets_tensor := torch_flatten target
  PyVal.tup
    [multiclass_f1_score logits_tensor targets_tensor 339 "micro",
     multiclass_f1_score logits_tensor targets_tensor 339 "macro",
     multiclass_f1_score logits_tensor targets_tensor 339 "weighted"]

/-- Python positional-call semantics for multiple_f1_score: the def accepts
exactly its two parameters (output, target); any other argument count
raises a TypeError. -/
def call_multiple_f1_score (args : List PyVal) : Except String PyVal :=
  match args with
  | [PyVal.nested output, PyVal.nested target] =>
      Except.ok (multiple_f1_score output target)
  | _ => Except.error "TypeError: multiple_f1_score takes 2 positional arguments"

/-- The metric call site of Trainer._train_epoch and _validate_epoch:
self.metric_fn(_logits, _targets, self.num_labels) with metric_fn bound to
multiple_f1_score by `src/train.py`. -/
def trainer_metric_call (logits targets : List (List Nat)) (num_labels : Nat) :
    Except String PyVal :=
  call_multiple_f1_score
    [PyVal.nested logits, PyVal.nested targets, PyVal.int (num_labels : Int)]

/-- The .keys() access the Trainer.train loop performs on the value the
metric function returned: defined only on a dict. -/
def py_keys : PyVal → Except String (List String)
  | PyVal.dict entries => Except.ok (entries.map Prod.fst)
  | _ => Except.error "AttributeError: keys"

/-- Per-epoch train/validation loss histories (self.losses). -/
structure LossHistory where
  train : List Rat
  valid : List Rat
  deriving Repr, DecidableEq

/-- Per-epoch train/validation metric histories, one series per metric name
(self.metrics). -/
structure MetricHistory where
  train : List (String × List Rat)
  valid : List (String × List Rat)
  deriving Repr, DecidableEq

/-- The trainer state touched by checkpointing: resumption epoch, model and
optimizer state dicts (abstracted to named scalar entries), histories,
and the best_{metric} attributes as an association list. -/
structure TrainerState where
  start_epoch : Nat
  model_state_dict : List (String × Rat)
  optimizer_state_dict : List (String × Rat)
  losses : LossHistory
  metrics : MetricHistory
  best : List (String × Rat)
  deriving Repr, DecidableEq

/-- getattr(self, f"best_{m}") on the modelled state. -/
def getattr_best (tr : TrainerState) (m : String) : Rat :=
  (tr.best.lookup m).getD 0

/-- The record serialized by Trainer._save_checkpoint. -/
structure Checkpoint where
  epoch : Nat
  model_state_dict : List (String × Rat)
  optimizer_state_dict : List (String × Rat)
  losses : LossHistory
  metrics : MetricHistory
  best_metrics : List (String × Rat)
  deriving Repr, DecidableEq

/-- Trainer._save_checkpoint, data part: the dict passed to torch.save,
with best_metrics keyed by "best_" ++ metric over config["metrics"]. -/
def save_checkpoint_record (cfg_metrics : List String) (tr : TrainerState)
    (epoch : Nat) : Checkpoint :=
  { epoch := epoch,
    model_state_dict := tr.model_state_dict,
    optimizer_state_dict := tr.optimizer_state_dict,
    losses := tr.losses,
    metrics := tr.metrics,
    best_metrics := cfg_metrics.map (fun m => ("best_" ++ m, getattr_best tr m)) }

/-- Trainer._load_checkpoint: sets start_epoch to the stored epoch + 1,
restores both state dicts, sets each best_{m} attribute for m in
config["metrics"] from the stored best_metrics dict, and restores the
metric and loss histories. -/
def load_checkpoint (cfg_metrics : List String) (tr : TrainerState)
    (ck : Checkpoint) : TrainerState :=
  { tr with
    start_epoch := ck.epoch + 1,
    model_state_dict := ck.model_state_dict,
    optimizer_state_dict := ck.optimizer_state_dict,
    best := cfg_metrics.map (fun m => (m, (ck.best_metrics.lookup ("best_" ++ m)).getD 0)),
    metrics := ck.metrics,
    losses := ck.losses }

/-- The per-metric best branch of Trainer.train: when the stored best value
is less than or equal to the epoch validation value, store the new value and
save a best checkpoint (second component true); otherwise keep the stored
value and save nothing. -/
def best_metric_update (best val : Rat) : Rat × Bool :=
  if best ≤ val then (val, true) else (best, false)

/-- Stored best values observed at the end of each successive epoch:
starting from stored value b0, fold the per-epoch validation values
through the best branch. -/
def best_history (b0 : Rat) : List Rat → List Rat
  | [] => []
  | v :: vs =>
    let b1 := (best_metric_update b0 v).1
    b1 :: best_history b1 vs

/-- The periodic-save branch condition of Trainer.train:
epoch % self.save_period_in_epochs == 0. -/
def periodic_save_condition (epoch save_period : Nat) : Bool :=
  epoch % save_period == 0

/-- The epochs of a run (range(self.start_epoch, self.num_epochs) as in
Trainer.train) at which the periodic branch saves a checkpoint. -/
def periodic_save_epochs (start_epoch num_epochs save_period : Nat) : List Nat :=
  (List.range' start_epoch (num_epochs - start_epoch)).filter
    (fun e => periodic_save_condition e save_period)

/-- Checkpoint file path built by Trainer._save_checkpoint: plain string
concatenation of self.checkpoint_dir with the file name, no separator
inserted. -/
def checkpoint_path (checkpoint_dir : String) (save_best : Bool) (suffix : String)
    (epoch : Nat) (timestamp : String) : String :=
  if save_best then
    checkpoint_dir ++ "model_best_" ++ suffix ++ ".pt"
  else
    checkpoint_dir ++ "model_epoch_" ++ toString epoch ++ "_datetime-" ++ timestamp ++ ".pt"

/-- Modelled from the claim wording: best path with a slash separator
between the directory and the file name. -/
def claimed_best_checkpoint_path (checkpoint_dir metric : String) : String :=
  checkpoint_dir ++ "/" ++ "model_best_" ++ metric ++ ".pt"

/-- Modelled from the claim wording: periodic path with a slash separator
between the directory and the file name. -/
def claimed_periodic_checkpoint_path (checkpoint_dir : String) (epoch : Nat)
    (timestamp : String) : String :=
  checkpoint_dir ++ "/" ++ "model_epoch_" ++ toString epoch ++ "_datetime-" ++ timestamp ++ ".pt"

/-- running_loss accumulation over the batches of one epoch. -/
def running_loss (batch_losses : List Rat) : Rat :=
  batch_losses.foldl (fun acc l => acc + l) 0

/-- The loss value recorded for an epoch by _train_epoch and _validate_epoch:
running_loss / self.batch_size. -/
def epoch_recorded_loss (batch_losses : List Rat) (batch_size : Nat) : Rat :=
  running_loss batch_losses / (batch_size : Rat)

/-- Helper: the stored best never decreases in one update step. -/
theorem best_metric_update_le (best val : Rat) : best ≤ (best_metric_update best val).1 := by
  unfold best_metric_update
  split
  · assumption
  · exact le_refl best

/-- C1: the claim says the trainer obtains the epoch F1 metrics by calling
the metric function with predictions, targets and the configured number of
labels and records them under the names f1_micro, f1_macro and f1_weighted.
The code cannot do this: multiple_f1_score accepts exactly two positional
arguments while the trainer passes three, so the call raises a TypeError;
and even a direct two-argument call returns an unnamed tuple, on which the
keys iteration used to record named metrics fails. -/
theorem C1_metric_interface_mismatch (logits targets : List (List Nat)) (num_labels : Nat) :
    trainer_metric_call logits targets num_labels =
      Except.error "TypeError: multiple_f1_score takes 2 positional arguments" ∧
    py_keys (multiple_f1_score logits targets) = Except.error "AttributeError: keys" :=
  ⟨rfl, rfl⟩

/-- C3: in the per-metric best branch of Trainer.train, a validation value
greater than or equal to the stored best updates the stored value and saves
a best checkpoint; a tie (equal value) triggers the update and the save; a
strictly smaller value triggers neither. -/
theorem C3_best_update_ge_tie_lt (best val : Rat) :
    (best ≤ val → best_metric_update best val = (val, true)) ∧
    best_metric_update best best = (best, true) ∧
    (val < best → best_metric_update best val = (best, false)) := by
  refine ⟨fun h => ?_, ?_, fun h => ?_⟩
  · unfold best_metric_update
    rw [if_pos h]
  · unfold best_metric_update
    rw [if_pos (le_refl best)]
  · unfold best_metric_update
    rw [if_neg (not_le.mpr h)]

/-- Witness for C3 at concrete values 1, 2 and a tie at 1. -/
theorem C3_best_update_ge_tie_lt_witness :
    best_metric_update 1 2 = (2, true) ∧ best_metric_update 1 1 = (1, true) ∧
      best_metric_update 2 1 = (2, false) :=
  ⟨(C3_best_update_ge_tie_lt 1 2).1 (by norm_num),
   (C3_best_update_ge_tie_lt 1 1).2.1,
   (C3_best_update_ge_tie_lt 2 1).2.2 (by norm_num)⟩

/-- C4: the sequence of stored best values observed at the end of each
epoch, starting from the stored value b0, is monotonically non-decreasing. -/
theorem C4_best_history_monotone (b0 : Rat) (vals : List Rat) :
    List.Chain' (· ≤ ·) (b0 :: best_history b0 vals) := by
  induction vals generalizing b0 with
  | nil =>
    simp [best_history]
  | cons v vs ih =>
    rw [best_history, List.chain'_cons]
    exact ⟨best_metric_update_le b0 v, ih _⟩

/-- C5: with a positive save period, the periodic branch saves exactly at
the epochs of the run range that are multiples of the period; a run starting
at epoch 0 always saves at epoch 0; the branch condition is false at
non-multiples. -/
theorem C5_periodic_saves (s n p e : Nat) (hp : 0 < p) :
    (e ∈ periodic_save_epochs s n p ↔ s ≤ e ∧ e < n ∧ p ∣ e) ∧
    (0 < n → 0 ∈ periodic_save_epochs 0 n p) ∧
    (¬ p ∣ e → periodic_save_condition e p = false) := by
  have hmem : ∀ x, x ∈ periodic_save_epochs s n p ↔ s ≤ x ∧ x < n ∧ p ∣ x := by
    intro x
    unfold periodic_save_epochs periodic_save_condition
    rw [List.mem_filter, List.mem_range'_1, beq_iff_eq]
    constructor
    · rintro ⟨⟨h1, h2⟩, h3⟩
      exact ⟨h1, by omega, Nat.dvd_of_mod_eq_zero h3⟩
    · rintro ⟨h1, h2, h3⟩
      exact ⟨⟨h1, by omega⟩, Nat.dvd_iff_mod_eq_zero.mp h3⟩
  refine ⟨hmem e, ?_, ?_⟩
  · intro hn
    have h0 : ∀ x, x ∈ periodic_save_epochs 0 n p ↔ 0 ≤ x ∧ x < n ∧ p ∣ x := by
      intro x
      unfold periodic_save_epochs periodic_save_condition
      rw [List.mem_filter, List.mem_range'_1, beq_iff_eq]
      constructor
      · rintro ⟨⟨h1, h2⟩, h3⟩
        exact ⟨h1, by omega, Nat.dvd_of_mod_eq_zero h3⟩
      · rintro ⟨h1, h2, h3⟩
        exact ⟨⟨h1, by omega⟩, Nat.dvd_iff_mod_eq_zero.mp h3⟩
    exact (h0 0).mpr ⟨le_refl 0, hn, Dvd.intro 0 rfl⟩
  · intro hnd
    unfold periodic_save_condition
    rw [beq_eq_false_iff_ne]
    intro hmod
    exact hnd (Nat.dvd_of_mod_eq_zero hmod)

/-- Witness for C5 at period 2, run range 0..3, epoch 2. -/
theorem C5_periodic_saves_witness :
    (2 ∈ periodic_save_epochs 0 3 2 ↔ 0 ≤ 2 ∧ 2 < 3 ∧ 2 ∣ 2) ∧
    (0 < 3 → 0 ∈ periodic_save_epochs 0 3 2) ∧
    (¬ 2 ∣ 2 → periodic_save_condition 2 2 = false) :=
  C5_periodic_saves 0 3 2 2 (by decide)

/-- C8: the device-id list of prepare_device never exceeds the number of
available GPUs; a positive request with no GPU available falls back to CPU
with an empty id list after adding a warning; and the returned device is a
GPU device exactly when the clamped count is positive. -/
theorem C8_prepare_device_clamps (num_gpu : Nat) (n_gpu_use : Int) :
    (prepare_device num_gpu n_gpu_use).list_ids.length ≤ num_gpu ∧
    (0 < n_gpu_use → num_gpu = 0 →
      (prepare_device num_gpu n_gpu_use).device = Device.cpu ∧
      (prepare_device num_gpu n_gpu_use).list_ids = [] ∧
      (prepare_device num_gpu n_gpu_use).warnings ≠ []) ∧
    ((prepare_device num_gpu n_gpu_use).device = Device.cuda 0 ↔
      0 < clamped_gpu_count num_gpu n_gpu_use) := by
  simp only [prepare_device, clamped_gpu_count]
  split_ifs with h1 h2 h3 h4 h5 h6 <;>
    simp_all [List.length_range]

/-- Witness for C8: three GPUs requested on a machine with none. -/
theorem C8_prepare_device_clamps_witness :
    (prepare_device 0 3).list_ids.length ≤ 0 ∧
    ((prepare_device 0 3).device = Device.cpu ∧
      (prepare_device 0 3).list_ids = [] ∧
      (prepare_device 0 3).warnings ≠ []) :=
  ⟨(C8_prepare_device_clamps 0 3).1,
   (C8_prepare_device_clamps 0 3).2.1 (by decide) rfl⟩

/-- C9 counterexample: when checkpoint_dir does not end with a slash, the
path the code writes differs from the claimed form with a slash separator. -/
theorem C9_checkpoint_path_counterexample :
    checkpoint_path "checkpoints" true "f1_micro" 0 "01-01-25_00-00-00" ≠
      claimed_best_checkpoint_path "checkpoints" "f1_micro" := by
  decide

/-- C9 amended: checkpoint paths are the plain concatenations
checkpoint_dir ++ "model_best_" ++ metric ++ ".pt" and
checkpoint_dir ++ "model_epoch_" ++ epoch ++ "_datetime-" ++ timestamp ++
".pt" with no separator inserted; they coincide with the claimed slashed
form exactly when the configured directory string itself carries the
trailing slash. -/
theorem C9_checkpoint_paths (d suffix timestamp : String) (epoch : Nat) :
    checkpoint_path (d ++ "/") true suffix epoch timestamp =
      claimed_best_checkpoint_path d suffix ∧
    checkpoint_path (d ++ "/") false suffix epoch timestamp =
      claimed_periodic_checkpoint_path d epoch timestamp ∧
    checkpoint_path d true suffix epoch timestamp =
      d ++ "model_best_" ++ suffix ++ ".pt" := by
  refine ⟨?_, ?_, rfl⟩ <;>
    · apply String.ext
      simp [checkpoint_path, claimed_best_checkpoint_path,
        claimed_periodic_checkpoint_path, String.data_append, List.append_assoc]

/-- C10: the recorded epoch loss is the accumulated running loss divided by
the configured batch size; whenever the number of batches differs from the
batch size (and the loss sum is nonzero), it differs from the division by
the number of batches. -/
theorem C10_loss_divided_by_batch_size (batch_losses : List Rat) (batch_size : Nat) :
    epoch_recorded_loss batch_losses batch_size =
      batch_losses.sum / (batch_size : Rat) ∧
    (batch_losses.sum ≠ 0 → 0 < batch_size → 0 < batch_losses.length →
      batch_size ≠ batch_losses.length →
      epoch_recorded_loss batch_losses batch_size ≠
        batch_losses.sum / (batch_losses.length : Rat)) := by
  have hrun : running_loss batch_losses = batch_losses.sum := by
    unfold running_loss
    rw [List.sum_eq_foldl]
  constructor
  · unfold epoch_recorded_loss
    rw [hrun]
  · intro hsum hbs hlen hne heq
    unfold epoch_recorded_loss at heq
    rw [hrun] at heq
    have hbs0 : ((batch_size : Nat) : Rat) ≠ 0 := by
      exact_mod_cast Nat.pos_iff_ne_zero.mp hbs
    have hlen0 : ((batch_losses.length : Nat) : Rat) ≠ 0 := by
      exact_mod_cast Nat.pos_iff_ne_zero.mp hlen
    rw [div_eq_div_iff hbs0 hlen0] at heq
    have := mul_left_cancel₀ hsum heq
    exact hne (by exact_mod_cast this.symm)

/-- Witness for C10 with one batch of loss 1 and batch size 2. -/
theorem C10_loss_divided_by_batch_size_witness :
    epoch_recorded_loss [1] 2 = List.sum [(1 : Rat)] / (2 : Rat) ∧
      epoch_recorded_loss [1] 2 ≠
        List.sum [(1 : Rat)] / ((List.length [(1 : Rat)] : Nat) : Rat) :=
  ⟨(C10_loss_divided_by_batch_size [1] 2).1,
   (C10_loss_divided_by_batch_size [1] 2).2 (by norm_num) (by norm_num)
     (by simp) (by decide)⟩

/-- Helper: appending a fixed string on the left is injective. -/
theorem string_append_left_inj (p : String) :
    ∀ a b : String, p ++ a = p ++ b → a = b := by
  intro a b h
  apply String.ext
  have hd : (p ++ a).data = (p ++ b).data := congrArg String.data h
  rw [String.data_append, String.data_append] at hd
  exact List.append_cancel_left hd

/-- Helper: looking up a mapped key in the keyed map built over a list of
names finds the value of the first occurrence of that name. -/
theorem lookup_map_of_mem {β : Type} (g : String → String)
    (hg : ∀ a b : String, g a = g b → a = b) (v : String → β) :
    ∀ (l : List String) (m : String), m ∈ l →
      (l.map (fun x => (g x, v x))).lookup (g m) = some (v m) := by
  intro l
  induction l with
  | nil =>
    intro m hm
    exact absurd hm (List.not_mem_nil m)
  | cons x xs ih =>
    intro m hm
    by_cases hx : m = x
    · subst hx
      simp [List.lookup]
    · have hne : (g m == g x) = false := by
        rw [beq_eq_false_iff_ne]
        exact fun hga => hx (hg m x hga)
      have hm' : m ∈ xs := by
        rcases List.mem_cons.mp hm with h | h
        · exact absurd h hx
        · exact h
      simp [List.lookup, hne, ih m hm']

/-- C2: saving a checkpoint at epoch e and loading it (into a trainer with
the same configured metric list) restores the identical model state dict,
optimizer state dict, loss history, metric history and stored best values,
and sets the resumption start epoch to e + 1. The hypothesis states the
shape the trainer constructor gives the best attributes: one stored value
per configured metric name. -/
theorem C2_checkpoint_roundtrip (cfg_metrics : List String) (f : String → Rat)
    (tr tr2 : TrainerState) (epoch : Nat)
    (hbest : tr.best = cfg_metrics.map (fun m => (m, f m))) :
    (load_checkpoint cfg_metrics tr2 (save_checkpoint_record cfg_metrics tr epoch)).start_epoch
        = epoch + 1 ∧
    (load_checkpoint cfg_metrics tr2 (save_checkpoint_record cfg_metrics tr epoch)).model_state_dict
        = tr.model_state_dict ∧
    (load_checkpoint cfg_metrics tr2 (save_checkpoint_record cfg_metrics tr epoch)).optimizer_state_dict
        = tr.optimizer_state_dict ∧
    (load_checkpoint cfg_metrics tr2 (save_checkpoint_record cfg_metrics tr epoch)).losses
        = tr.losses ∧
    (load_checkpoint cfg_metrics tr2 (save_checkpoint_record cfg_metrics tr epoch)).metrics
        = tr.metrics ∧
    (load_checkpoint cfg_metrics tr2 (save_checkpoint_record cfg_metrics tr epoch)).best
        = tr.best := by
  refine ⟨rfl, rfl, rfl, rfl, rfl, ?_⟩
  have hstep : ∀ m ∈ cfg_metrics, getattr_best tr m = f m := by
    intro m hm
    unfold getattr_best
    rw [hbest, lookup_map_of_mem (fun x => x) (fun a b h => h) f cfg_metrics m hm]
    rfl
  have hbm : (save_checkpoint_record cfg_metrics tr epoch).best_metrics =
      cfg_metrics.map (fun m => ("best_" ++ m, f m)) := by
    show cfg_metrics.map (fun m => ("best_" ++ m, getattr_best tr m)) = _
    exact List.map_congr_left (fun m hm => by rw [hstep m hm])
  show cfg_metrics.map
      (fun m => (m, ((save_checkpoint_record cfg_metrics tr epoch).best_metrics.lookup
        ("best_" ++ m)).getD 0)) = tr.best
  rw [hbest]
  apply List.map_congr_left
  intro m hm
  rw [hbm, lookup_map_of_mem (fun x => "best_" ++ x) (string_append_left_inj "best_")
    f cfg_metrics m hm]
  rfl

/-- Witness for C2 on a concrete one-metric trainer state. -/
theorem C2_checkpoint_roundtrip_witness :
    (load_checkpoint ["f1_micro"]
        (TrainerState.mk 9 [] [] (LossHistory.mk [] []) (MetricHistory.mk [] []) [])
        (save_checkpoint_record ["f1_micro"]
          (TrainerState.mk 0 [("w", 1)] [("lr", 2)] (LossHistory.mk [3] [4])
            (MetricHistory.mk [("f1_micro", [5])] [("f1_micro", [6])])
            [("f1_micro", 7)]) 2)).best
      = [("f1_micro", 7)] ∧
    (load_checkpoint ["f1_micro"]
        (TrainerState.mk 9 [] [] (LossHistory.mk [] []) (MetricHistory.mk [] []) [])
        (save_checkpoint_record ["f1_micro"]
          (TrainerState.mk 0 [("w", 1)] [("lr", 2)] (LossHistory.mk [3] [4])
            (MetricHistory.mk [("f1_micro", [5])] [("f1_micro", [6])])
            [("f1_micro", 7)]) 2)).start_epoch = 3 :=
  ⟨(C2_checkpoint_roundtrip ["f1_micro"] (fun _ => 7)
      (TrainerState.mk 0 [("w", 1)] [("lr", 2)] (LossHistory.mk [3] [4])
        (MetricHistory.mk [("f1_micro", [5])] [("f1_micro", [6])])
        [("f1_micro", 7)])
      (TrainerState.mk 9 [] [] (LossHistory.mk [] []) (MetricHistory.mk [] []) [])
      2 rfl).2.2.2.2.2,
   (C2_checkpoint_roundtrip ["f1_micro"] (fun _ => 7)
      (TrainerState.mk 0 [("w", 1)] [("lr", 2)] (LossHistory.mk [3] [4])
        (MetricHistory.mk [("f1_micro", [5])] [("f1_micro", [6])])
        [("f1_micro", 7)])
      (TrainerState.mk 9 [] [] (LossHistory.mk [] []) (MetricHistory.mk [] []) [])
      2 rfl).1⟩

/-- Helper: shifting the scan offset shifts every reported index. -/
theorem row_token_indexes_shift (token_id : Nat) (row : List Nat) :
    ∀ k, row_token_indexes token_id row (k + 1) =
      (row_token_indexes token_id row k).map (fun m => m + 1) := by
  induction row with
  | nil =>
    intro k
    rfl
  | cons x xs ih =>
    intro k
    unfold row_token_indexes
    by_cases hx : x = token_id
    · rw [if_pos hx, if_pos hx, List.map_cons, ih (k + 1)]
    · rw [if_neg hx, if_neg hx, ih (k + 1)]

/-- Helper: the indexes reported for a row scanned from offset 0 are exactly
the in-range positions holding the token id. -/
theorem row_token_indexes_mem (token_id : Nat) :
    ∀ (row : List Nat) (m : Nat),
      m ∈ row_token_indexes token_id row 0 ↔
        m < row.length ∧ row.getD m 0 = token_id := by
  intro row
  induction row with
  | nil =>
    intro m
    simp [row_token_indexes]
  | cons x xs ih =>
    intro m
    have hshift : row_token_indexes token_id xs 1 =
        (row_token_indexes token_id xs 0).map (fun m => m + 1) :=
      row_token_indexes_shift token_id xs 0
    unfold row_token_indexes
    by_cases hx : x = token_id
    · rw [if_pos hx]
      cases m with
      | zero =>
        simp [hx]
      | succ m' =>
        simp only [List.mem_cons, hshift, List.mem_map, List.length_cons,
          List.getD_cons_succ]
        constructor
        · rintro (h | ⟨m'', hm'', hq⟩)
          · exact absurd h (by omega)
          · obtain rfl : m'' = m' := by omega
            have h3 := (ih m'').mp hm''
            exact ⟨by omega, h3.2⟩
        · rintro ⟨h1, h2⟩
          exact Or.inr ⟨m', (ih m').mpr ⟨by omega, h2⟩, rfl⟩
    · rw [if_neg hx]
      cases m with
      | zero =>
        simp only [hshift, List.mem_map, List.length_cons, List.getD_cons_zero]
        constructor
        · rintro ⟨m'', _, hq⟩
          exact absurd hq (by omega)
        · rintro ⟨h1, h2⟩
          exact absurd h2 hx
      | succ m' =>
        simp only [hshift, List.mem_map, List.length_cons, List.getD_cons_succ]
        constructor
        · rintro ⟨m'', hm'', hq⟩
          obtain rfl : m'' = m' := by omega
          have h3 := (ih m'').mp hm''
          exact ⟨by omega, h3.2⟩
        · rintro ⟨h1, h2⟩
          exact ⟨m', (ih m').mpr ⟨by omega, h2⟩, rfl⟩

/-- Helper: one reported index per occurrence in a row. -/
theorem row_token_indexes_length (token_id : Nat) :
    ∀ (row : List Nat) (k : Nat),
      (row_token_indexes token_id row k).length = row.count token_id := by
  intro row
  induction row with
  | nil =>
    intro k
    rfl
  | cons x xs ih =>
    intro k
    unfold row_token_indexes
    by_cases hx : x = token_id
    · rw [if_pos hx, List.length_cons, ih (k + 1), List.count_cons]
      simp [hx]
    · rw [if_neg hx, ih (k + 1), List.count_cons]
      simp [hx]

/-- Helper: every reported index is at least the scan offset. -/
theorem row_token_indexes_lower (token_id : Nat) :
    ∀ (row : List Nat) (k m : Nat), m ∈ row_token_indexes token_id row k → k ≤ m := by
  intro row
  induction row with
  | nil =>
    intro k m hm
    exact absurd hm (List.not_mem_nil m)
  | cons x xs ih =>
    intro k m hm
    unfold row_token_indexes at hm
    by_cases hx : x = token_id
    · rw [if_pos hx] at hm
      rcases List.mem_cons.mp hm with h | h
      · omega
      · have := ih (k + 1) m h
        omega
    · rw [if_neg hx] at hm
      have := ih (k + 1) m hm
      omega

/-- Helper: the indexes reported for one row are strictly increasing. -/
theorem row_token_indexes_sorted (token_id : Nat) :
    ∀ (row : List Nat) (k : Nat),
      List.Pairwise (· < ·) (row_token_indexes token_id row k) := by
  intro row
  induction row with
  | nil =>
    intro k
    exact List.Pairwise.nil
  | cons x xs ih =>
    intro k
    unfold row_token_indexes
    by_cases hx : x = token_id
    · rw [if_pos hx]
      refine List.Pairwise.cons ?_ (ih (k + 1))
      intro m hm
      have := row_token_indexes_lower token_id xs (k + 1) m hm
      omega
    · rw [if_neg hx]
      exact ih (k + 1)

/-- Helper: every index pair from the row scan has first component at least
the row offset. -/
theorem nonzero_rows_lower (token_id : Nat) :
    ∀ (rows : List (List Nat)) (j : Nat) (p : Nat × Nat),
      p ∈ nonzero_rows token_id rows j → j ≤ p.1 := by
  intro rows
  induction rows with
  | nil =>
    intro j p hp
    exact absurd hp (List.not_mem_nil p)
  | cons row rest ih =>
    intro j p hp
    unfold nonzero_rows at hp
    rcases List.mem_append.mp hp with h | h
    · rcases List.mem_map.mp h with ⟨k, _, hq⟩
      subst hq
      exact le_refl j
    · have := ih (j + 1) p h
      omega

/-- Helper: membership characterisation for the row scan started at offset
j. -/
theorem nonzero_rows_mem (token_id : Nat) :
    ∀ (rows : List (List Nat)) (j a b : Nat),
      (a, b) ∈ nonzero_rows token_id rows j ↔
        ∃ r, r < rows.length ∧ a = j + r ∧
          b ∈ row_token_indexes token_id (rows.getD r []) 0 := by
  intro rows
  induction rows with
  | nil =>
    intro j a b
    simp [nonzero_rows]
  | cons row rest ih =>
    intro j a b
    unfold nonzero_rows
    rw [List.mem_append]
    constructor
    · rintro (h | h)
      · rcases List.mem_map.mp h with ⟨k, hk, hq⟩
        refine ⟨0, by simp, ?_, ?_⟩
        · have ha : a = j := congrArg Prod.fst hq.symm
          omega
        · have hb : b = k := congrArg Prod.snd hq.symm
          subst hb
          simpa using hk
      · rcases (ih (j + 1) a b).mp h with ⟨r, hr, ha, hb⟩
        exact ⟨r + 1, by simpa using Nat.succ_lt_succ hr, by omega, by simpa using hb⟩
    · rintro ⟨r, hr, ha, hb⟩
      cases r with
      | zero =>
        refine Or.inl (List.mem_map.mpr ⟨b, by simpa using hb, ?_⟩)
        simp [ha]
      | succ r' =>
        refine Or.inr ((ih (j + 1) a b).mpr
          ⟨r', by simp only [List.length_cons] at hr; omega, by omega, by simpa using hb⟩)

/-- Helper: one index pair per occurrence over all rows. -/
theorem nonzero_rows_length (token_id : Nat) :
    ∀ (rows : List (List Nat)) (j : Nat),
      (nonzero_rows token_id rows j).length =
        (rows.map (fun row => row.count token_id)).sum := by
  intro rows
  induction rows with
  | nil =>
    intro j
    rfl
  | cons row rest ih =>
    intro j
    unfold nonzero_rows
    rw [List.length_append, List.length_map, row_token_indexes_length, List.map_cons,
      List.sum_cons, ih (j + 1)]

/-- Helper: the row scan lists index pairs in strictly increasing row-major
order. -/
theorem nonzero_rows_sorted (token_id : Nat) :
    ∀ (rows : List (List Nat)) (j : Nat),
      List.Pairwise idx_lex_lt (nonzero_rows token_id rows j) := by
  intro rows
  induction rows with
  | nil =>
    intro j
    exact List.Pairwise.nil
  | cons row rest ih =>
    intro j
    unfold nonzero_rows
    rw [List.pairwise_append]
    refine ⟨?_, ih (j + 1), ?_⟩
    · refine List.Pairwise.map _ ?_ (row_token_indexes_sorted token_id row 0)
      intro a b hab
      exact Or.inr ⟨rfl, hab⟩
    · intro p hp q hq
      rcases List.mem_map.mp hp with ⟨k, _, hpq⟩
      subst hpq
      have := nonzero_rows_lower token_id rest (j + 1) q hq
      exact Or.inl (by omega)

/-- C6: token-logit extraction returns exactly one row per occurrence of the
designated token id; the matched index pairs are exactly the in-range
positions holding the token id, listed in strictly increasing row-major
order (examples first, positions within an example second); and the i-th
output row is the logits vector at the i-th matched position. -/
theorem C6_get_token_logits_rows (data : List (List Nat))
    (logits : List (List (List Rat))) (token_id : Nat) :
    (get_token_logits data logits token_id).length =
      (data.map (fun row => row.count token_id)).sum ∧
    (∀ a b : Nat, (a, b) ∈ torch_nonzero_eq data token_id ↔
      (a < data.length ∧ b < (data.getD a []).length ∧
        (data.getD a []).getD b 0 = token_id)) ∧
    List.Pairwise idx_lex_lt (torch_nonzero_eq data token_id) ∧
    (∀ i, i < (torch_nonzero_eq data token_id).length →
      (get_token_logits data logits token_id).getD i [] =
        (logits.getD ((torch_nonzero_eq data token_id).getD i (0, 0)).1 []).getD
          ((torch_nonzero_eq data token_id).getD i (0, 0)).2 []) := by
  refine ⟨?_, ?_, nonzero_rows_sorted token_id data 0, ?_⟩
  · show ((torch_nonzero_eq data token_id).map _).length = _
    rw [List.length_map]
    exact nonzero_rows_length token_id data 0
  · intro a b
    rw [show torch_nonzero_eq data token_id = nonzero_rows token_id data 0 from rfl,
      nonzero_rows_mem token_id data 0 a b]
    constructor
    · rintro ⟨r, hr, ha, hb⟩
      have har : a = r := by omega
      subst har
      have := (row_token_indexes_mem token_id (data.getD a []) b).mp hb
      exact ⟨hr, this.1, this.2⟩
    · rintro ⟨h1, h2, h3⟩
      exact ⟨a, h1, by omega,
        (row_token_indexes_mem token_id (data.getD a []) b).mpr ⟨h2, h3⟩⟩
  · intro i hi
    show ((torch_nonzero_eq data token_id).map
      (fun jk => (logits.getD jk.1 []).getD jk.2 [])).getD i [] = _
    have hlen : i < ((torch_nonzero_eq data token_id).map
        (fun jk => (logits.getD jk.1 []).getD jk.2 [])).length := by
      rw [List.length_map]
      exact hi
    rw [List.getD_eq_getElem _ _ hlen, List.getElem_map, List.getD_eq_getElem _ _ hi]

/-- Witness for C6 on a concrete two-row batch with two occurrences. -/
theorem C6_get_token_logits_rows_witness :
    (get_token_logits [[101, 7], [5, 101]] [[[1], [2]], [[3], [4]]] 101).getD 0 [] =
      ([[[(1 : Rat)], [2]], [[3], [4]]].getD
          ((torch_nonzero_eq [[101, 7], [5, 101]] 101).getD 0 (0, 0)).1 []).getD
        ((torch_nonzero_eq [[101, 7], [5, 101]] 101).getD 0 (0, 0)).2 [] :=
  (C6_get_token_logits_rows [[101, 7], [5, 101]] [[[1], [2]], [[3], [4]]] 101).2.2.2
    0 (by decide)

/-- Helper: every element is bounded by the foldr max of its list. -/
theorem le_foldr_max (l : List Nat) : ∀ x ∈ l, x ≤ l.foldr max 0 := by
  induction l with
  | nil =>
    intro x hx
    exact absurd hx (List.not_mem_nil x)
  | cons y ys ih =>
    intro x hx
    rcases List.mem_cons.mp hx with h | h
    · subst h
      exact le_max_left x (ys.foldr max 0)
    · exact le_trans (ih x h) (le_max_right y (ys.foldr max 0))

/-- Helper: getD through a map for an in-range index, any defaults. -/
theorem getD_map_of_lt {α β : Type} (f : α → β) (l : List α) (d : α) (e : β) :
    ∀ i, i < l.length → (l.map f).getD i e = f (l.getD i d) := by
  induction l with
  | nil =>
    intro i hi
    simp at hi
  | cons x xs ih =>
    intro i hi
    cases i with
    | zero => rfl
    | succ j =>
      simp only [List.map_cons, List.getD_cons_succ]
      exact ih j (by simp only [List.length_cons] at hi; omega)

/-- Helper: a list of ones sums to its length. -/
theorem sum_of_ones (l : List Nat) (h : ∀ x ∈ l, x = 1) : l.sum = l.length := by
  induction l with
  | nil => rfl
  | cons x xs ih =>
    rw [List.sum_cons, List.length_cons, h x (List.mem_cons_self x xs),
      ih (fun y hy => h y (List.mem_cons_of_mem x hy))]
    omega

/-- C7 counterexample: one sample carrying two labels yields a flattened
label sequence of two elements for a batch of one example, refuting the
claimed equality of label count and example count. -/
theorem C7_collate_labels_counterexample :
    (collate [Sample.mk [1] [5, 6]]).labels.length ≠
      ([Sample.mk [1] [5, 6]] : List Sample).length := by
  decide

/-- C7 amended: for every non-empty batch, every collated row is padded with
zeros to the length of the longest sequence in the batch (row i being
sample i followed by zeros), and the flattened label count equals the sum
of the per-sample label counts; it equals the example count exactly in the
special case that every sample carries one label. -/
theorem C7_collate_pads_and_flattens (samples : List Sample) (hne : samples ≠ []) :
    (∀ row ∈ (collate samples).data, row.length = batch_max_len samples) ∧
    (∀ i, i < samples.length →
      (collate samples).data.getD i [] =
        (samples.getD i (Sample.mk [] [])).data ++
          List.replicate
            (batch_max_len samples - (samples.getD i (Sample.mk [] [])).data.length) 0) ∧
    (collate samples).labels.length = (samples.map (fun s => s.labels.length)).sum ∧
    ((∀ s ∈ samples, s.labels.length = 1) →
      (collate samples).labels.length = samples.length) := by
  have hlab : (collate samples).labels.length =
      (samples.map (fun s => s.labels.length)).sum := by
    show ((samples.map (fun s => s.labels)).flatten).length = _
    rw [List.length_flatten, List.map_map]
    rfl
  refine ⟨?_, ?_, hlab, ?_⟩
  · intro row hrow
    rcases List.mem_map.mp hrow with ⟨s, hs, hq⟩
    subst hq
    have hle : s.data.length ≤ batch_max_len samples := by
      unfold batch_max_len
      exact le_foldr_max (samples.map (fun t => t.data.length)) s.data.length
        (List.mem_map.mpr ⟨s, hs, rfl⟩)
    show (s.data ++ List.replicate (batch_max_len samples - s.data.length) 0).length = _
    rw [List.length_append, List.length_replicate]
    omega
  · intro i hi
    show (samples.map (fun s => pad_sequence_row (batch_max_len samples) s.data)).getD i []
      = _
    rw [getD_map_of_lt (fun s => pad_sequence_row (batch_max_len samples) s.data)
      samples (Sample.mk [] []) [] i hi]
    rfl
  · intro hones
    rw [hlab]
    have h1 : ∀ x ∈ samples.map (fun s => s.labels.length), x = 1 := by
      intro x hx
      rcases List.mem_map.mp hx with ⟨s, hs, hq⟩
      subst hq
      exact hones s hs
    rw [sum_of_ones (samples.map (fun s => s.labels.length)) h1, List.length_map]

/-- Witness for C7 on a concrete two-sample batch with one label each. -/
theorem C7_collate_pads_and_flattens_witness :
    (collate [Sample.mk [1, 2] [5], Sample.mk [3] [6]]).labels.length =
      ([Sample.mk [1, 2] [5], Sample.mk [3] [6]] : List Sample).length :=
  (C7_collate_pads_and_flattens [Sample.mk [1, 2] [5], Sample.mk [3] [6]]
    (by decide)).2.2.2 (by decide)

end RuTaBERT
